import Mathlib

/-!
Shallow embedding of the crawl-and-store pipeline of the
Text-Summarization-Using-TF-IDF repository (src/crawling/), together with
theorems settling the specification claims about it.

Python strings are modelled as Lean `String`/`List Char`; the Unicode data
consulted by `str.lower`, `str.upper`, `unicodedata.normalize('NFD', ·)` and
the `Mn` category test is given by finite tables covering ASCII and the full
Vietnamese alphabet (the character universe this program operates on);
characters outside the tables are left untouched / classified by a default.
Filesystem and network effects are modelled by explicit oracles.
-/

set_option maxRecDepth 8192

namespace Crawl

/-- Association lookup on a list of key/value pairs (first match wins),
mirroring a Python dict built from the table. -/
def alookup {α : Type} (l : List (Char × α)) (c : Char) : Option α :=
  match l with
  | [] => none
  | (k, v) :: rest => if c = k then some v else alookup rest c

/-- Case-mapping table used by Python `str.lower` restricted to ASCII and the
Vietnamese alphabet: uppercase letter to its lowercase form. -/
def lowerPairs : List (Char × Char) := [
  ('A', 'a'), ('B', 'b'), ('C', 'c'), ('D', 'd'), ('E', 'e'), ('F', 'f'), ('G', 'g'), ('H', 'h'), ('I', 'i'), ('J', 'j'), ('K', 'k'), ('L', 'l'), ('M', 'm')
  , ('N', 'n'), ('O', 'o'), ('P', 'p'), ('Q', 'q'), ('R', 'r'), ('S', 's'), ('T', 't'), ('U', 'u'), ('V', 'v'), ('W', 'w'), ('X', 'x'), ('Y', 'y'), ('Z', 'z')
  , ('Á', 'á'), ('À', 'à'), ('Ả', 'ả'), ('Ã', 'ã'), ('Ạ', 'ạ'), ('Ă', 'ă'), ('Ắ', 'ắ'), ('Ằ', 'ằ'), ('Ẳ', 'ẳ'), ('Ẵ', 'ẵ'), ('Ặ', 'ặ'), ('Â', 'â'), ('Ấ', 'ấ')
  , ('Ầ', 'ầ'), ('Ẩ', 'ẩ'), ('Ẫ', 'ẫ'), ('Ậ', 'ậ'), ('É', 'é'), ('È', 'è'), ('Ẻ', 'ẻ'), ('Ẽ', 'ẽ'), ('Ẹ', 'ẹ'), ('Ê', 'ê'), ('Ế', 'ế'), ('Ề', 'ề'), ('Ể', 'ể')
  , ('Ễ', 'ễ'), ('Ệ', 'ệ'), ('Í', 'í'), ('Ì', 'ì'), ('Ỉ', 'ỉ'), ('Ĩ', 'ĩ'), ('Ị', 'ị'), ('Ó', 'ó'), ('Ò', 'ò'), ('Ỏ', 'ỏ'), ('Õ', 'õ'), ('Ọ', 'ọ'), ('Ô', 'ô')
  , ('Ố', 'ố'), ('Ồ', 'ồ'), ('Ổ', 'ổ'), ('Ỗ', 'ỗ'), ('Ộ', 'ộ'), ('Ơ', 'ơ'), ('Ớ', 'ớ'), ('Ờ', 'ờ'), ('Ở', 'ở'), ('Ỡ', 'ỡ'), ('Ợ', 'ợ'), ('Ú', 'ú'), ('Ù', 'ù')
  , ('Ủ', 'ủ'), ('Ũ', 'ũ'), ('Ụ', 'ụ'), ('Ư', 'ư'), ('Ứ', 'ứ'), ('Ừ', 'ừ'), ('Ử', 'ử'), ('Ữ', 'ữ'), ('Ự', 'ự'), ('Ý', 'ý'), ('Ỳ', 'ỳ'), ('Ỷ', 'ỷ'), ('Ỹ', 'ỹ')
  , ('Ỵ', 'ỵ'), ('Đ', 'đ')
]

/-- Case-mapping table used by Python `str.upper` restricted to ASCII and the
Vietnamese alphabet: lowercase letter to its uppercase form. -/
def upperPairs : List (Char × Char) := [
  ('a', 'A'), ('b', 'B'), ('c', 'C'), ('d', 'D'), ('e', 'E'), ('f', 'F'), ('g', 'G'), ('h', 'H'), ('i', 'I'), ('j', 'J'), ('k', 'K'), ('l', 'L'), ('m', 'M')
  , ('n', 'N'), ('o', 'O'), ('p', 'P'), ('q', 'Q'), ('r', 'R'), ('s', 'S'), ('t', 'T'), ('u', 'U'), ('v', 'V'), ('w', 'W'), ('x', 'X'), ('y', 'Y'), ('z', 'Z')
  , ('á', 'Á'), ('à', 'À'), ('ả', 'Ả'), ('ã', 'Ã'), ('ạ', 'Ạ'), ('ă', 'Ă'), ('ắ', 'Ắ'), ('ằ', 'Ằ'), ('ẳ', 'Ẳ'), ('ẵ', 'Ẵ'), ('ặ', 'Ặ'), ('â', 'Â'), ('ấ', 'Ấ')
  , ('ầ', 'Ầ'), ('ẩ', 'Ẩ'), ('ẫ', 'Ẫ'), ('ậ', 'Ậ'), ('é', 'É'), ('è', 'È'), ('ẻ', 'Ẻ'), ('ẽ', 'Ẽ'), ('ẹ', 'Ẹ'), ('ê', 'Ê'), ('ế', 'Ế'), ('ề', 'Ề'), ('ể', 'Ể')
  , ('ễ', 'Ễ'), ('ệ', 'Ệ'), ('í', 'Í'), ('ì', 'Ì'), ('ỉ', 'Ỉ'), ('ĩ', 'Ĩ'), ('ị', 'Ị'), ('ó', 'Ó'), ('ò', 'Ò'), ('ỏ', 'Ỏ'), ('õ', 'Õ'), ('ọ', 'Ọ'), ('ô', 'Ô')
  , ('ố', 'Ố'), ('ồ', 'Ồ'), ('ổ', 'Ổ'), ('ỗ', 'Ỗ'), ('ộ', 'Ộ'), ('ơ', 'Ơ'), ('ớ', 'Ớ'), ('ờ', 'Ờ'), ('ở', 'Ở'), ('ỡ', 'Ỡ'), ('ợ', 'Ợ'), ('ú', 'Ú'), ('ù', 'Ù')
  , ('ủ', 'Ủ'), ('ũ', 'Ũ'), ('ụ', 'Ụ'), ('ư', 'Ư'), ('ứ', 'Ứ'), ('ừ', 'Ừ'), ('ử', 'Ử'), ('ữ', 'Ữ'), ('ự', 'Ự'), ('ý', 'Ý'), ('ỳ', 'Ỳ'), ('ỷ', 'Ỷ'), ('ỹ', 'Ỹ')
  , ('ỵ', 'Ỵ'), ('đ', 'Đ')
]

/-- Canonical (NFD) decomposition table of `unicodedata.normalize('NFD', ·)`
restricted to the Vietnamese precomposed lowercase letters
(the đ digraph has no canonical decomposition and is absent). -/
def decompPairs : List (Char × List Char) := [
  ('á', ['a', '́'])
  , ('à', ['a', '̀'])
  , ('ả', ['a', '̉'])
  , ('ã', ['a', '̃'])
  , ('ạ', ['a', '̣'])
  , ('ă', ['a', '̆'])
  , ('ắ', ['a', '̆', '́'])
  , ('ằ', ['a', '̆', '̀'])
  , ('ẳ', ['a', '̆', '̉'])
  , ('ẵ', ['a', '̆', '̃'])
  , ('ặ', ['a', '̣', '̆'])
  , ('â', ['a', '̂'])
  , ('ấ', ['a', '̂', '́'])
  , ('ầ', ['a', '̂', '̀'])
  , ('ẩ', ['a', '̂', '̉'])
  , ('ẫ', ['a', '̂', '̃'])
  , ('ậ', ['a', '̣', '̂'])
  , ('é', ['e', '́'])
  , ('è', ['e', '̀'])
  , ('ẻ', ['e', '̉'])
  , ('ẽ', ['e', '̃'])
  , ('ẹ', ['e', '̣'])
  , ('ê', ['e', '̂'])
  , ('ế', ['e', '̂', '́'])
  , ('ề', ['e', '̂', '̀'])
  , ('ể', ['e', '̂', '̉'])
  , ('ễ', ['e', '̂', '̃'])
  , ('ệ', ['e', '̣', '̂'])
  , ('í', ['i', '́'])
  , ('ì', ['i', '̀'])
  , ('ỉ', ['i', '̉'])
  , ('ĩ', ['i', '̃'])
  , ('ị', ['i', '̣'])
  , ('ó', ['o', '́'])
  , ('ò', ['o', '̀'])
  , ('ỏ', ['o', '̉'])
  , ('õ', ['o', '̃'])
  , ('ọ', ['o', '̣'])
  , ('ô', ['o', '̂'])
  , ('ố', ['o', '̂', '́'])
  , ('ồ', ['o', '̂', '̀'])
  , ('ổ', ['o', '̂', '̉'])
  , ('ỗ', ['o', '̂', '̃'])
  , ('ộ', ['o', '̣', '̂'])
  , ('ơ', ['o', '̛'])
  , ('ớ', ['o', '̛', '́'])
  , ('ờ', ['o', '̛', '̀'])
  , ('ở', ['o', '̛', '̉'])
  , ('ỡ', ['o', '̛', '̃'])
  , ('ợ', ['o', '̛', '̣'])
  , ('ú', ['u', '́'])
  , ('ù', ['u', '̀'])
  , ('ủ', ['u', '̉'])
  , ('ũ', ['u', '̃'])
  , ('ụ', ['u', '̣'])
  , ('ư', ['u', '̛'])
  , ('ứ', ['u', '̛', '́'])
  , ('ừ', ['u', '̛', '̀'])
  , ('ử', ['u', '̛', '̉'])
  , ('ữ', ['u', '̛', '̃'])
  , ('ự', ['u', '̛', '̣'])
  , ('ý', ['y', '́'])
  , ('ỳ', ['y', '̀'])
  , ('ỷ', ['y', '̉'])
  , ('ỹ', ['y', '̃'])
  , ('ỵ', ['y', '̣'])
]

/-- The combining marks (Unicode category `Mn`) occurring in the NFD
decompositions of the Vietnamese alphabet. -/
def mnMarks : List Char := ['̀', '́', '̂', '̃', '̆', '̉', '̛', '̣']

/-- Python `str.lower`, character-wise, over the table. -/
def pyCharLower (c : Char) : Char := (alookup lowerPairs c).getD c

/-- Python `str.upper`, character-wise, over the table. -/
def pyCharUpper (c : Char) : Char := (alookup upperPairs c).getD c

/-- Python `str.lower` on a whole string. -/
def pyLower (s : String) : String := ⟨s.data.map pyCharLower⟩

/-- Python `str.upper` on a whole string. -/
def pyUpper (s : String) : String := ⟨s.data.map pyCharUpper⟩

/-- Canonical decomposition (`unicodedata.normalize('NFD', ·)`) of one
character; characters without a table entry decompose to themselves. -/
def nfdChar (c : Char) : List Char := (alookup decompPairs c).getD [c]

/-- Membership test for Unicode category `Mn` (nonspacing combining mark),
restricted to the marks of the Vietnamese alphabet. -/
def isMnChar (c : Char) : Bool := mnMarks.contains c

/-- The explicit `vietnamese_map = {'đ': 'd', 'Đ': 'D'}` replacement of
`remove_vietnamese_accents` (src/crawling/utils.py). -/
def dChar (c : Char) : Char :=
  if c = 'đ' then 'd' else if c = 'Đ' then 'D' else c

/-- Embedding of `remove_vietnamese_accents` (src/crawling/utils.py):
NFD-decompose, drop combining marks (category `Mn`), then map đ/Đ to d/D. -/
def removeVietAccentsL (l : List Char) : List Char :=
  ((l.flatMap nfdChar).filter (fun c => !isMnChar c)).map dChar

/-- Python regex `\w` class (word character), restricted to the model's
character universe: underscore, ASCII alphanumerics, and any non-ASCII
character that is not a combining mark. -/
def isWordCharPy (c : Char) : Bool :=
  c = '_' || ('a' ≤ c && c ≤ 'z') || ('A' ≤ c && c ≤ 'Z')
    || ('0' ≤ c && c ≤ '9') || (c.toNat ≥ 128 && !isMnChar c)

/-- Python regex `\s` class (ASCII whitespace). -/
def isSpacePy (c : Char) : Bool :=
  c = ' ' || c = '\t' || c = '\n' || c = '\u000B' || c = '\u000C' || c = '\r'

/-- Split a character list into maximal runs of non-whitespace characters
(Python `str.split()`); `acc` holds the current word reversed. -/
def wordsAux (l : List Char) (acc : List Char) : List (List Char) :=
  match l with
  | [] => if acc.isEmpty then [] else [acc.reverse]
  | c :: cs =>
    if isSpacePy c then
      if acc.isEmpty then wordsAux cs [] else acc.reverse :: wordsAux cs []
    else wordsAux cs (c :: acc)

/-- Join words with single spaces. -/
def joinWordsSp : List (List Char) → List Char
  | [] => []
  | [w] => w
  | w :: x :: rest => w ++ ' ' :: joinWordsSp (x :: rest)

/-- Embedding of `re.sub(r'\s+', ' ', name).strip()`: collapse whitespace
runs to one space and strip the ends, which equals joining the
whitespace-separated words with single spaces. -/
def collapseWSL (l : List Char) : List Char :=
  joinWordsSp (wordsAux l [])

/-- Embedding of `name.replace(' ', '_')`. -/
def spaceToUnd (l : List Char) : List Char :=
  l.map (fun c => if c = ' ' then '_' else c)

/-- Embedding of `re.sub(r'_{2,}', '_', name)`: collapse every run of two or
more underscores into one. -/
def collapseUnd : List Char → List Char
  | [] => []
  | [c] => [c]
  | c :: d :: rest =>
    if c = '_' && d = '_' then collapseUnd (d :: rest)
    else c :: collapseUnd (d :: rest)

/-- Embedding of `normalize_category_name` (src/crawling/utils.py):
lowercase, strip Vietnamese accents, replace non-word non-space characters
by a space, collapse/strip whitespace, spaces to underscores, collapse
repeated underscores.  Empty input is returned unchanged (the falsy guard). -/
def normalizeNameL (l : List Char) : List Char :=
  if l.isEmpty then l
  else
    collapseUnd (spaceToUnd (collapseWSL
      ((removeVietAccentsL (l.map pyCharLower)).map
        (fun c => if isWordCharPy c || isSpacePy c then c else ' '))))

/-- String version of `normalize_category_name`. -/
def normalizeName (s : String) : String := ⟨normalizeNameL s.data⟩

/-- No two adjacent underscores occur in the list. -/
def noDoubleUnd : List Char → Bool
  | [] => true
  | [_] => true
  | c :: d :: rest => !(c = '_' && d = '_') && noDoubleUnd (d :: rest)

/-- The characters that `normalize_category_name` can output: fixed under
lowercasing, canonical decomposition, the đ-map, not combining marks, word
characters, and not whitespace. -/
def normalChar (c : Char) : Prop :=
  pyCharLower c = c ∧ nfdChar c = [c] ∧ isMnChar c = false ∧ dChar c = c ∧
  isWordCharPy c = true ∧ isSpacePy c = false

/-- Characters replaced by `sanitize_filename` (src/crawling/utils.py):
the regex class `[\x00-\x1F\\/:*?"<>|]`. -/
def isBadFileChar (c : Char) : Bool :=
  c.toNat ≤ 0x1F || c = '\\' || c = '/' || c = ':' || c = '*'
    || c = '?' || c = '"' || c = '<' || c = '>' || c = '|'

/-- Python `str.strip()`: drop whitespace from both ends. -/
def stripPy (l : List Char) : List Char :=
  ((l.dropWhile isSpacePy).reverse.dropWhile isSpacePy).reverse

/-- Embedding of `sanitize_filename` (src/crawling/utils.py): replace
control and filesystem-special characters by underscore, strip, collapse
repeated underscores, truncate to 100 characters. -/
def sanitizeFilename (s : String) : String :=
  ⟨(collapseUnd (stripPy (s.data.map
      (fun c => if isBadFileChar c then '_' else c)))).take 100⟩

-- ==================== CategoryMapper ====================

/-- One value of the `CategoryMapper.mappings` dict: the original name and
its display form. -/
structure MapEntry where
  original : String
  display : String
deriving DecidableEq, Repr

/-- The `CategoryMapper.mappings` dict, modelled as a map from normalized
keys to entries. -/
def Mappings : Type := String → Option MapEntry

/-- Embedding of `CategoryMapper.add_category` (src/crawling/utils.py):
normalize the original name, record `{original_name, display_name =
original.upper()}` under the normalized key, and return the key. -/
def addCategory (m : Mappings) (originalName : String) : String × Mappings :=
  let normalized := normalizeName originalName
  (normalized,
   fun k => if k = normalized
            then some ⟨originalName, pyUpper originalName⟩
            else m k)

/-- Embedding of `CategoryMapper.get_normalized_name`: normalize, and
auto-register the original on first sight. -/
def getNormalizedName (m : Mappings) (original : String) : String × Mappings :=
  let normalized := normalizeName original
  match m normalized with
  | some _ => (normalized, m)
  | none => addCategory m original

/-- Embedding of `CategoryMapper.get_display_name`:
`self.mappings.get(normalized, {}).get('display_name', normalized.upper())`. -/
def getDisplayName (m : Mappings) (normalized : String) : String :=
  match m normalized with
  | some e => e.display
  | none => pyUpper normalized

-- ==================== ArticleStorage ====================

/-- Directory-name constants of src/crawling/config.py. -/
def ARTICLE_DIR : String := "article"

/-- Directory-name constant `METADATA_DIR` of src/crawling/config.py. -/
def METADATA_DIR : String := "metadata"

/-- Directory-name constant `CATEGORY_DIR` of src/crawling/config.py. -/
def CATEGORY_DIR : String := "category"

/-- Directory-name constant `SUB_CATEGORY_DIR` of src/crawling/config.py. -/
def SUB_CATEGORY_DIR : String := "sub-category"

/-- Embedding of `ArticleStorage._get_counter_key`: `category::subcategory`
when a subcategory is given, else the category alone. -/
def counterKey (category : String) (subcategory : Option String) : String :=
  match subcategory with
  | some sub => category ++ "::" ++ sub
  | none => category

/-- The in-memory `category_counters` dict, keyed by counter key. -/
def Counters : Type := String → Nat

/-- The all-zero counter state a fresh `ArticleStorage` starts with. -/
def emptyCounters : Counters := fun _ => 0

/-- A JSON value as written into the metadata file. -/
inductive MetaValue where
  | jInt (n : Nat)
  | jStr (s : String)
  | jNull
deriving DecidableEq, Repr

/-- The `metadata` dict passed into `save_article` by
`NewsScraper.get_article_content`. -/
structure MetaIn where
  date : Option String
  author : Option String
  source : Option String
deriving DecidableEq, Repr

/-- Option-to-JSON helper: Python `None` becomes JSON `null`. -/
def optStr : Option String → MetaValue
  | some s => MetaValue.jStr s
  | none => MetaValue.jNull

/-- The `metadata_full` dict literal of `ArticleStorage.save_article`
(src/crawling/storage.py), in insertion order. -/
def metadataFull (index : Nat) (category : String) (subcategory : Option String)
    (title url : String) (meta : MetaIn) (crawlDate : String) :
    List (String × MetaValue) :=
  [("index", MetaValue.jInt index),
   ("category", MetaValue.jStr category),
   ("subcategory", optStr subcategory),
   ("title", MetaValue.jStr title),
   ("url", MetaValue.jStr url),
   ("date", optStr meta.date),
   ("author", optStr meta.author),
   ("source", MetaValue.jStr (meta.source.getD "baochinhphu.vn")),
   ("crawl_date", MetaValue.jStr crawlDate)]

/-- Content of a file written by `save_article`. -/
inductive FileContent where
  | fcText (s : String)
  | fcJson (fields : List (String × MetaValue))
deriving DecidableEq, Repr

/-- Oracle for the I/O performed by one `save_article` call: whether each
directory creation and file write succeeds, and the wall-clock value
`get_crawl_datetime()` returns. -/
structure SaveOracle where
  mkdirArticleOk : Bool
  mkdirMetaOk : Bool
  writeArticleOk : Bool
  writeMetaOk : Bool
  crawlDate : String
deriving Repr

/-- An oracle under which every I/O operation succeeds. -/
def allOk : SaveOracle := ⟨true, true, true, true, "2025-01-01 00:00:00"⟩

/-- Result of one `save_article` call: the returned boolean, the counter
state afterwards, the index that was assigned (none if the call failed
before `_get_next_index`), and the files that were written
(path segments relative to the base directory, with contents). -/
structure SaveResult where
  ok : Bool
  counters : Counters
  idx : Option Nat
  files : List (List String × FileContent)

/-- Embedding of `ArticleStorage.save_article` (src/crawling/storage.py).
The body runs inside `try`: any I/O failure, at the point the oracle says
it happens, makes the function return `False`; nothing is re-raised.
Path: `<sanitized category>/category` or
`<sanitized category>/sub-category/<sanitized subcategory>`, then
`article/article_<i>.txt` and `metadata/metadata_<i>.json`. -/
def saveArticle (counters : Counters) (o : SaveOracle)
    (articleContent title url : String) (meta : MetaIn)
    (category : String) (subcategory : Option String) : SaveResult :=
  let basePath : List String :=
    match subcategory with
    | some sub => [sanitizeFilename category, SUB_CATEGORY_DIR, sanitizeFilename sub]
    | none => [sanitizeFilename category, CATEGORY_DIR]
  if !o.mkdirArticleOk then ⟨false, counters, none, []⟩
  else if !o.mkdirMetaOk then ⟨false, counters, none, []⟩
  else
    let key := counterKey category subcategory
    let index := counters key + 1
    let counters1 : Counters := fun k => if k = key then index else counters k
    if !o.writeArticleOk then ⟨false, counters1, some index, []⟩
    else
      let articleFile := (basePath ++ [ARTICLE_DIR, "article_" ++ toString index ++ ".txt"],
                          FileContent.fcText articleContent)
      if !o.writeMetaOk then ⟨false, counters1, some index, [articleFile]⟩
      else
        let metadataFile := (basePath ++ [METADATA_DIR, "metadata_" ++ toString index ++ ".json"],
                             FileContent.fcJson (metadataFull index category subcategory
                               title url meta o.crawlDate))
        ⟨true, counters1, some index, [articleFile, metadataFile]⟩

/-- A sequence of `save_article` calls against one `ArticleStorage`
instance: each call supplies its oracle, category and subcategory (the
article payload is irrelevant to indexing); the assigned indices are
collected in order. -/
def saveRun (counters : Counters) (body title url : String) (meta : MetaIn) :
    List (SaveOracle × String × Option String) → List (Option Nat) × Counters
  | [] => ([], counters)
  | (o, cat, sub) :: rest =>
    let r := saveArticle counters o body title url meta cat sub
    let rest' := saveRun r.counters body title url meta rest
    (r.idx :: rest'.1, rest'.2)

-- ==================== Fetcher / retry ====================

/-- Config constant `MAX_RETRIES` (src/crawling/config.py). -/
def MAX_RETRIES : Nat := 3

/-- Config constant `RETRY_DELAY` (src/crawling/config.py), in seconds. -/
def RETRY_DELAY : Nat := 5

/-- Config constant `URL` (src/crawling/config.py). -/
def SITE_URL : String := "https://baochinhphu.vn"

/-- The error surfaced when every fetch attempt fails: it carries the
cause of the final failure and the number of attempts made.
Modelled from the spec: the `retry` decorator applied at
`NewsScraper._make_request` is imported from src/crawling/utils.py but its
definition is absent from src/; the spec describes a `FetchError` carrying
the cause and the attempt count. -/
structure FetchError where
  cause : String
  attempts : Nat
deriving DecidableEq, Repr

/-- Trace of one retried fetch: the outcome, the number of attempts made,
and the list of inter-attempt delays observed (in seconds). -/
structure RetryTrace (α : Type) where
  result : Except FetchError α
  attemptsMade : Nat
  delays : List Nat

/-- Modelled from the spec: the `retry(max_attempts, delay, exceptions)`
decorator (absent from src/, imported from src/crawling/utils.py at
src/crawling/scraper.py line 21).  `attempt i` is the outcome of the
`i`-th underlying request (0-based).  Up to `maxAttempts` attempts are
made; after a failed attempt that is not the last, a delay of `delayS`
seconds is observed; the final failure is surfaced as a `FetchError`
carrying its cause and the total attempt count. -/
def retryRun {α : Type} (delayS : Nat) (attempt : Nat → Except String α) :
    Nat → Nat → RetryTrace α
  | _, 0 => ⟨Except.error ⟨"no attempts", 0⟩, 0, []⟩
  | i, 1 =>
    match attempt i with
    | Except.ok v => ⟨Except.ok v, 1, []⟩
    | Except.error c => ⟨Except.error ⟨c, i + 1⟩, 1, []⟩
  | i, n + 2 =>
    match attempt i with
    | Except.ok v => ⟨Except.ok v, 1, []⟩
    | Except.error _ =>
      let t := retryRun delayS attempt (i + 1) (n + 1)
      ⟨t.result, t.attemptsMade + 1, delayS :: t.delays⟩

/-- The retried fetch as configured at `NewsScraper._make_request`:
`@retry(max_attempts=MAX_RETRIES, delay=RETRY_DELAY, ...)`. -/
def makeRequest {α : Type} (attempt : Nat → Except String α) : RetryTrace α :=
  retryRun RETRY_DELAY attempt 0 MAX_RETRIES

-- ==================== Extractor ====================

/-- Python `str.startswith`. -/
def startsWithPy (s pre : String) : Bool := pre.data.isPrefixOf s.data

/-- Embedding of `normalize_url` (src/crawling/utils.py): `None` for a
falsy link; absolute links returned as-is; otherwise strip one leading
`^\.+/` match and join with the base URL. -/
def normalizeUrl (link : String) (base : String) : Option String :=
  if link = "" then none
  else if startsWithPy link "http" then some link
  else
    let stripped :=
      let ds := link.data.takeWhile (fun c => c = '.')
      let rest := link.data.drop ds.length
      match ds, rest with
      | _ :: _, '/' :: tail => (⟨tail⟩ : String)
      | _, _ => link
    if startsWithPy stripped "/" then some (base ++ stripped)
    else some (base ++ "/" ++ stripped)

/-- One candidate article link scanned from a listing page: the stripped
anchor text and the raw `href` (already filtered to `.htm$` links by the
`find_all` calls). -/
structure Cand where
  title : String
  link : String
deriving DecidableEq, Repr

/-- One returned article record: title and absolute URL. -/
structure Art where
  title : String
  link : String
deriving DecidableEq, Repr

/-- The per-candidate body of the scanning loops in
`NewsScraper.get_articles_from_page`: reject empty title or link, resolve
the absolute URL, and reject a URL already seen on this page. -/
def scanCands : List Cand → List String → List Art → List String × List Art
  | [], seen, acc => (seen, acc)
  | c :: rest, seen, acc =>
    if c.title ≠ "" ∧ c.link ≠ "" then
      match normalizeUrl c.link SITE_URL with
      | some full =>
        if full ∈ seen then scanCands rest seen acc
        else scanCands rest (full :: seen) (acc ++ [⟨c.title, full⟩])
      | none => scanCands rest seen acc
    else scanCands rest seen acc

/-- Embedding of `NewsScraper.get_articles_from_page`
(src/crawling/scraper.py): scan the `h2`/`h3` candidates; only if that
yields nothing, scan the class-based fallback candidates (the `seen_links`
set carries over); finally truncate to `max_articles` — but only when
`max_articles` is truthy (a zero disables the cap, as `if max_articles:`
does). -/
def getArticlesFromPage (strategy1 strategy2 : List Cand) (maxArticles : Nat) :
    List Art :=
  let r1 := scanCands strategy1 [] []
  let arts2 := if r1.2.isEmpty then (scanCands strategy2 r1.1 r1.2).2 else r1.2
  if maxArticles ≠ 0 then arts2.take maxArticles else arts2

/-- A paragraph-level element collected from the article content container:
the stripped text of its first `<b>` descendant, if any, and its own
stripped text. -/
structure Para where
  bold : Option String
  text : String
deriving DecidableEq, Repr

/-- The `invalid_keywords` list of
`NewsScraper._extract_author_from_paragraphs`. -/
def invalidKeywords : List String :=
  ["nguồn", "theo", "tham khảo", "xem thêm", "liên hệ"]

/-- Contiguous-substring test (Python `needle in hay`). -/
def subOccurs (needle : List Char) : List Char → Bool
  | [] => decide (needle = [])
  | c :: cs => needle.isPrefixOf (c :: cs) || subOccurs needle cs

/-- The validation of a candidate author string in
`NewsScraper._extract_author_from_paragraphs`: nonempty, shorter than 50
characters, and its lowercase form contains none of the invalid keywords. -/
def isValidAuthor (t : String) : Bool :=
  t ≠ "" && t.length < 50
    && invalidKeywords.all (fun kw => !subOccurs kw.data (pyLower t).data)

/-- Embedding of `NewsScraper._extract_author_from_paragraphs`
(src/crawling/scraper.py): look at the last paragraph only; if it has a
`<b>` tag whose text validates, return that text as the author and drop
the paragraph; otherwise no author and the list is unchanged. -/
def extractAuthor (ps : List Para) : Option String × List Para :=
  match ps.getLast? with
  | none => (none, ps)
  | some lastP =>
    match lastP.bold with
    | none => (none, ps)
    | some t =>
      if isValidAuthor t then (some t, ps.dropLast) else (none, ps)

/-- The `content_parts` list comprehension of
`NewsScraper.get_article_content`: the texts of the paragraphs whose
stripped text is nonempty. -/
def contentParts (ps : List Para) : List String :=
  ps.filterMap (fun p => if p.text = "" then none else some p.text)

/-- Python `sep.join(parts)`. -/
def joinSep (sep : String) : List String → String
  | [] => ""
  | [x] => x
  | x :: y :: rest => x ++ sep ++ joinSep sep (y :: rest)

/-- The `main_content` join of `NewsScraper.get_article_content`:
the nonempty paragraph texts joined with a blank line ('\n\n'), and the
empty string when no part remains. -/
def mainContent (ps : List Para) : String :=
  let parts := contentParts ps
  if parts.isEmpty then "" else joinSep "\n\n" parts

/-- The acceptance test of the author-extraction step, as a function of
the last paragraph alone: it has bold text and that text validates. -/
def acceptPara (p : Para) : Bool :=
  match p.bold with
  | none => false
  | some t => isValidAuthor t

-- ==================== CrawlOrchestrator ====================

/-- Outcome of processing one article inside `NewsScraper.crawl_category`:
the processing raised an exception (e.g. fetch retries exhausted), the
content came back empty, or the content was passed to storage which
returned true or false. -/
inductive ArtOutcome where
  | raise
  | noContent
  | savedOk
  | saveFailed
deriving DecidableEq, Repr

/-- The article loop of `NewsScraper.crawl_category`: processed strictly in
order, with no per-article exception handler — the first raising article
aborts the loop and propagates; non-raising articles contribute 1 to the
saved count exactly when storage returned true. -/
def processArts : List ArtOutcome → Except Unit Nat
  | [] => Except.ok 0
  | a :: rest =>
    match a with
    | ArtOutcome.raise => Except.error ()
    | ArtOutcome.savedOk => (processArts rest).map (· + 1)
    | _ => processArts rest

/-- The subcategory loop of `NewsScraper.crawl_category`: per subcategory,
run the article loop (again with no handler, so a raise propagates), and
count the subcategory exactly when its article list was nonempty. -/
def processSubs : List (List ArtOutcome) → Except Unit (Nat × Nat)
  | [] => Except.ok (0, 0)
  | sub :: rest =>
    match processArts sub with
    | Except.error e => Except.error e
    | Except.ok n =>
      match processSubs rest with
      | Except.error e => Except.error e
      | Except.ok (subCount, artCount) =>
        Except.ok (subCount + (if sub.isEmpty then 0 else 1), artCount + n)

/-- Per-category statistics returned by `crawl_category`. -/
structure CatStats where
  subcategories : Nat
  articles : Nat
deriving DecidableEq, Repr

/-- Input of one `crawl_category` call: the outcomes of the main-listing
articles and, per discovered subcategory, of its articles. -/
structure CatInput where
  mainArts : List ArtOutcome
  subs : List (List ArtOutcome)

/-- Embedding of `NewsScraper.crawl_category` (src/crawling/scraper.py):
the whole body runs with no internal exception handler, so any raise in
the main-article loop or any subcategory's article loop propagates to the
caller before the remaining items are processed. -/
def crawlCategory (inp : CatInput) : Except Unit CatStats :=
  match processArts inp.mainArts with
  | Except.error e => Except.error e
  | Except.ok m =>
    match processSubs inp.subs with
    | Except.error e => Except.error e
    | Except.ok (subCount, subArts) => Except.ok ⟨subCount, m + subArts⟩

/-- Aggregate run statistics of `main` (src/crawling/main.py). -/
structure RunStats where
  categories : Nat
  subcategories : Nat
  articles : Nat
deriving DecidableEq, Repr

/-- Componentwise sum of run statistics. -/
def addRun (a b : RunStats) : RunStats :=
  ⟨a.categories + b.categories, a.subcategories + b.subcategories,
   a.articles + b.articles⟩

/-- What one category contributes to the totals in `main`: its stats on
success, nothing when `crawl_category` raised (the `except` branch logs
and continues). -/
def catContribution (c : CatInput) : RunStats :=
  match crawlCategory c with
  | Except.ok s => ⟨1, s.subcategories, s.articles⟩
  | Except.error _ => ⟨0, 0, 0⟩

/-- Embedding of the category loop of `main` (src/crawling/main.py): each
category is processed inside `try`; an exception is caught there and the
loop continues with the next category. -/
def mainRun : List CatInput → RunStats
  | [] => ⟨0, 0, 0⟩
  | c :: rest => addRun (catContribution c) (mainRun rest)

-- ==================== Theorems ====================

theorem alookup_mem {α : Type} {l : List (Char × α)} {c : Char} {v : α}
    (h : alookup l c = some v) : (c, v) ∈ l := by
  induction l with
  | nil => simp [alookup] at h
  | cons p rest ih =>
    obtain ⟨k, w⟩ := p
    by_cases hc : c = k
    · subst hc
      simp [alookup] at h
      simp [h]
    · simp [alookup, hc] at h
      exact List.mem_cons_of_mem _ (ih h)

example : normalizeName "Chính trị" = "chinh_tri" := by decide

/-- C10: `CategoryMapper.get_display_name` is total on all string keys:
an unregistered key returns its own uppercase form; after registering an
original name via `add_category`, its normalized key returns the uppercase
original; registering does not disturb other keys.  In particular,
registering "Chính trị" makes "chinh_tri" display as "CHÍNH TRỊ". -/
theorem claim_C10 :
    (∀ (m : Mappings) (key : String), m key = none →
      getDisplayName m key = pyUpper key) ∧
    (∀ (m : Mappings) (orig k : String),
      getDisplayName (addCategory m orig).2 k =
        if k = normalizeName orig then pyUpper orig else getDisplayName m k) ∧
    getDisplayName (addCategory (fun _ => none) "Chính trị").2 "chinh_tri"
      = "CHÍNH TRỊ" := by
  refine ⟨?_, ?_, ?_⟩
  · intro m key h
    simp [getDisplayName, h]
  · intro m orig k
    by_cases hk : k = normalizeName orig
    · simp [getDisplayName, addCategory, hk]
    · simp [getDisplayName, addCategory, hk]
  · decide

/-- Witness for C10 at a concrete unregistered key. -/
theorem claim_C10_witness :
    getDisplayName (fun _ => none) "kinh_te" = "KINH_TE" :=
  claim_C10.1 (fun _ => none) "kinh_te" rfl

/-- C4: `ArticleStorage.save_article` returns a boolean — its body runs
inside a catch-all `try`, so no exception escapes (reflected here by the
embedding being a total `Bool`-valued function) — and the result is `true`
exactly when every I/O step succeeded, in which case both the article body
file and the metadata file have been written. -/
theorem claim_C4 :
    ∀ (counters : Counters) (o : SaveOracle) (content title url : String)
      (meta : MetaIn) (cat : String) (sub : Option String),
      ((saveArticle counters o content title url meta cat sub).ok = true ↔
        (o.mkdirArticleOk = true ∧ o.mkdirMetaOk = true ∧
         o.writeArticleOk = true ∧ o.writeMetaOk = true)) ∧
      ((saveArticle counters o content title url meta cat sub).ok = true →
        ∃ pa pm idx,
          (saveArticle counters o content title url meta cat sub).files =
            [(pa, FileContent.fcText content),
             (pm, FileContent.fcJson
               (metadataFull idx cat sub title url meta o.crawlDate))]) ∧
      ((saveArticle counters o content title url meta cat sub).ok = false →
        ∀ fields, (FileContent.fcJson fields) ∉
          ((saveArticle counters o content title url meta cat sub).files.map Prod.snd)) := by
  intro counters o content title url meta cat sub
  obtain ⟨ma, mm, wa, wm, cd⟩ := o
  cases ma <;> cases mm <;> cases wa <;> cases wm <;>
    simp [saveArticle] <;>
    exact ⟨_, rfl⟩

/-- Witness for C4: a concrete all-successful save returns `true` and a
concrete save with a failing metadata write returns `false`, with no
metadata file produced. -/
theorem claim_C4_witness :
    (saveArticle emptyCounters allOk "b" "t" "u" ⟨none, none, none⟩ "Xã hội" none).ok
      = true ∧
    (saveArticle emptyCounters ⟨true, true, true, false, "d"⟩ "b" "t" "u"
      ⟨none, none, none⟩ "Xã hội" none).ok = false := by
  constructor
  · exact ((claim_C4 emptyCounters allOk "b" "t" "u" ⟨none, none, none⟩ "Xã hội" none).1).2
      ⟨rfl, rfl, rfl, rfl⟩
  · have h := (claim_C4 emptyCounters ⟨true, true, true, false, "d"⟩ "b" "t" "u"
      ⟨none, none, none⟩ "Xã hội" none).1
    by_contra hb
    have : (saveArticle emptyCounters ⟨true, true, true, false, "d"⟩ "b" "t" "u"
      ⟨none, none, none⟩ "Xã hội" none).ok = true := by
      revert hb
      cases (saveArticle emptyCounters ⟨true, true, true, false, "d"⟩ "b" "t" "u"
        ⟨none, none, none⟩ "Xã hội" none).ok <;> simp
    exact absurd (h.mp this).2.2.2 (by decide)

/-- C5: when every underlying request fails, the retried fetch makes
exactly `MAX_RETRIES` attempts with exactly `MAX_RETRIES - 1` delays of
`RETRY_DELAY` seconds between them, and surfaces a `FetchError` carrying
the final cause and the attempt count. -/
theorem claim_C5 :
    ∀ {α : Type} (attempt : Nat → Except String α) (cause : String),
      (∀ i, i < MAX_RETRIES → ∃ c, attempt i = Except.error c) →
      attempt (MAX_RETRIES - 1) = Except.error cause →
      makeRequest attempt =
        ⟨Except.error ⟨cause, MAX_RETRIES⟩, MAX_RETRIES,
         List.replicate (MAX_RETRIES - 1) RETRY_DELAY⟩ := by
  intro α attempt cause hAll hLast
  obtain ⟨c0, h0⟩ := hAll 0 (by decide)
  obtain ⟨c1, h1⟩ := hAll 1 (by decide)
  have hLast2 : attempt 2 = Except.error cause := hLast
  show retryRun RETRY_DELAY attempt 0 MAX_RETRIES = _
  show retryRun RETRY_DELAY attempt 0 3 = _
  rw [show (3 : Nat) = 1 + 2 from rfl]
  rw [retryRun, h0]
  rw [show (1 + 1 : Nat) = 0 + 2 from rfl]
  rw [retryRun, h1]
  rw [retryRun, hLast2]
  rfl

/-- Witness for C5: a request that fails on every attempt with cause
"timeout" yields a `FetchError` with that cause and attempt count 3, after
3 attempts and 2 delays of 5 seconds. -/
theorem claim_C5_witness :
    makeRequest (fun _ => (Except.error "timeout" : Except String Unit)) =
      ⟨Except.error ⟨"timeout", 3⟩, 3, [5, 5]⟩ :=
  claim_C5 (fun _ => (Except.error "timeout" : Except String Unit)) "timeout"
    (fun _ _ => ⟨"timeout", rfl⟩) rfl

/-- C1 counterexample: saving an article under category "Chính trị" (all
I/O succeeding) stores it under path segment "Chính trị" — the sanitized
raw title, not the CategoryMapper normalization "chinh_tri" — and the
metadata JSON has exactly the nine fields index, category, subcategory,
title, url, date, author, source, crawl_date: none of category_normalized,
subcategory_normalized, category_display, subcategory_display is present. -/
theorem claim_C1_counterexample :
    (saveArticle emptyCounters allOk "body" "Title" "https://u.htm"
        ⟨some "1/2/2025", some "Minh Anh", some "baochinhphu.vn"⟩
        "Chính trị" none).files.map Prod.fst =
      [["Chính trị", "category", "article", "article_1.txt"],
       ["Chính trị", "category", "metadata", "metadata_1.json"]] ∧
    ("Chính trị" : String) ≠ normalizeName "Chính trị" ∧
    (metadataFull 1 "Chính trị" none "Title" "https://u.htm"
        ⟨some "1/2/2025", some "Minh Anh", some "baochinhphu.vn"⟩
        "2025-01-01 00:00:00").map Prod.fst =
      ["index", "category", "subcategory", "title", "url", "date", "author",
       "source", "crawl_date"] ∧
    "category_normalized" ∉
      (metadataFull 1 "Chính trị" none "Title" "https://u.htm"
        ⟨some "1/2/2025", some "Minh Anh", some "baochinhphu.vn"⟩
        "2025-01-01 00:00:00").map Prod.fst ∧
    "category_display" ∉
      (metadataFull 1 "Chính trị" none "Title" "https://u.htm"
        ⟨some "1/2/2025", some "Minh Anh", some "baochinhphu.vn"⟩
        "2025-01-01 00:00:00").map Prod.fst := by
  refine ⟨by decide, by decide, by decide, by decide, by decide⟩

/-- C1 (amended): `save_article` never consults `CategoryMapper`; for every
successful save the storage path is
`base/<sanitize_filename(category)>/category/...` (no subcategory) or
`base/<sanitize_filename(category)>/sub-category/<sanitize_filename(subcategory)>/...`,
and the metadata JSON it writes contains exactly the fields index,
category, subcategory, title, url, date, author, source and crawl_date —
no normalized or display name fields. -/
theorem claim_C1 :
    ∀ (counters : Counters) (cd content title url : String) (meta : MetaIn)
      (cat : String) (sub : Option String),
      (saveArticle counters ⟨true, true, true, true, cd⟩
          content title url meta cat sub).files =
        (let base : List String :=
          match sub with
          | some s => [sanitizeFilename cat, SUB_CATEGORY_DIR, sanitizeFilename s]
          | none => [sanitizeFilename cat, CATEGORY_DIR]
         let idx := counters (counterKey cat sub) + 1
         [(base ++ [ARTICLE_DIR, "article_" ++ toString idx ++ ".txt"],
           FileContent.fcText content),
          (base ++ [METADATA_DIR, "metadata_" ++ toString idx ++ ".json"],
           FileContent.fcJson (metadataFull idx cat sub title url meta cd))]) ∧
      ∀ (idx : Nat),
        (metadataFull idx cat sub title url meta cd).map Prod.fst =
          ["index", "category", "subcategory", "title", "url", "date",
           "author", "source", "crawl_date"] := by
  intro counters cd content title url meta cat sub
  exact ⟨rfl, fun _ => rfl⟩

/-- C2 counterexample: (1) a save whose body-file write fails still
increments the counter (the index is assigned before the write), so after
one failed and one successful save under ("Chính trị", none) the first
*successfully stored* article receives index 2, not 1; (2) the counter key
is the string join `category::subcategory`, so the distinct keys
("a::b", none) and ("a", some "b") share one counter: a first save under
("a", some "b") receives index 2 after one save under ("a::b", none). -/
theorem claim_C2_counterexample :
    (saveArticle emptyCounters ⟨true, true, false, true, "d"⟩ "b" "t" "u"
        ⟨none, none, none⟩ "Chính trị" none).ok = false ∧
    (saveArticle emptyCounters ⟨true, true, false, true, "d"⟩ "b" "t" "u"
        ⟨none, none, none⟩ "Chính trị" none).counters "Chính trị" = 1 ∧
    (saveArticle
        (saveArticle emptyCounters ⟨true, true, false, true, "d"⟩ "b" "t" "u"
          ⟨none, none, none⟩ "Chính trị" none).counters
        allOk "b" "t" "u" ⟨none, none, none⟩ "Chính trị" none).ok = true ∧
    (saveArticle
        (saveArticle emptyCounters ⟨true, true, false, true, "d"⟩ "b" "t" "u"
          ⟨none, none, none⟩ "Chính trị" none).counters
        allOk "b" "t" "u" ⟨none, none, none⟩ "Chính trị" none).idx = some 2 ∧
    counterKey "a::b" none = counterKey "a" (some "b") ∧
    (saveArticle
        (saveArticle emptyCounters allOk "b" "t" "u" ⟨none, none, none⟩
          "a::b" none).counters
        allOk "b" "t" "u" ⟨none, none, none⟩ "a" (some "b")).idx = some 2 := by
  refine ⟨by decide, by decide, by decide, by decide, by decide, by decide⟩

/-- C2 (amended): every counter starts at 0; a `save_article` call
increments the counter of its key by exactly 1 when it reaches index
assignment (that is, when both directory creations succeed), whether or
not the file writes then succeed, and leaves every other counter-key
string unchanged; in a run whose saves all succeed, the n-th save under a
key receives index n (3 saves under ("Chính trị", none) receive 1, 2, 3).
Keys are the joined strings `category` / `category::subcategory`, so two
(category, subcategory) pairs with the same join share a counter. -/
theorem claim_C2 :
    (∀ k, emptyCounters k = 0) ∧
    (∀ (counters : Counters) (o : SaveOracle) (b t u : String) (meta : MetaIn)
       (cat : String) (sub : Option String) (k : String),
       k ≠ counterKey cat sub →
       (saveArticle counters o b t u meta cat sub).counters k = counters k) ∧
    (∀ (counters : Counters) (o : SaveOracle) (b t u : String) (meta : MetaIn)
       (cat : String) (sub : Option String),
       (saveArticle counters o b t u meta cat sub).counters (counterKey cat sub) =
         if o.mkdirArticleOk && o.mkdirMetaOk
         then counters (counterKey cat sub) + 1
         else counters (counterKey cat sub)) ∧
    (∀ (n : Nat) (b t u : String) (meta : MetaIn) (cat : String)
       (sub : Option String),
       (saveRun emptyCounters b t u meta
         (List.replicate n (allOk, cat, sub))).1 =
         (List.range n).map (fun i => some (i + 1))) := by
  refine ⟨fun _ => rfl, ?_, ?_, ?_⟩
  · intro counters o b t u meta cat sub k hk
    obtain ⟨ma, mm, wa, wm, cd⟩ := o
    cases ma <;> cases mm <;> cases wa <;> cases wm <;>
      simp [saveArticle, hk]
  · intro counters o b t u meta cat sub
    obtain ⟨ma, mm, wa, wm, cd⟩ := o
    cases ma <;> cases mm <;> cases wa <;> cases wm <;>
      simp [saveArticle]
  · intro n b t u meta cat sub
    have allOkStep : ∀ (c : Counters),
        (saveArticle c allOk b t u meta cat sub).idx
            = some (c (counterKey cat sub) + 1) ∧
        (saveArticle c allOk b t u meta cat sub).counters
            (counterKey cat sub) = c (counterKey cat sub) + 1 := by
      intro c
      exact ⟨rfl, by simp [saveArticle, allOk]⟩
    have key : ∀ (m : Nat) (c : Counters),
        (saveRun c b t u meta (List.replicate m (allOk, cat, sub))).1 =
          (List.range m).map (fun i => some (c (counterKey cat sub) + i + 1)) := by
      intro m
      induction m with
      | zero => intro c; rfl
      | succ m ih =>
        intro c
        rw [List.replicate_succ, List.range_succ_eq_map]
        simp only [saveRun]
        obtain ⟨h1, h2⟩ := allOkStep c
        rw [h1, ih, h2]
        simp only [List.map_cons, List.map_map]
        congr 1
        apply List.map_congr_left
        intro i _
        simp only [Function.comp]
        congr 1
        omega
    have h := key n emptyCounters
    simpa [emptyCounters] using h

/-- Witness for C2: a save under "Chính trị" leaves the "Kinh tế" counter
at 0, and three all-successful saves under ("Chính trị", none) receive
indices 1, 2, 3. -/
theorem claim_C2_witness :
    (saveArticle emptyCounters allOk "b" "t" "u" ⟨none, none, none⟩
      "Chính trị" none).counters "Kinh tế" = 0 ∧
    (saveRun emptyCounters "b" "t" "u" ⟨none, none, none⟩
      (List.replicate 3 (allOk, "Chính trị", none))).1 =
      [some 1, some 2, some 3] := by
  constructor
  · have h := claim_C2.2.1 emptyCounters allOk "b" "t" "u" ⟨none, none, none⟩
      "Chính trị" none "Kinh tế" (by decide)
    rw [h]
    rfl
  · have h := claim_C2.2.2.2 3 "b" "t" "u" ⟨none, none, none⟩ "Chính trị" none
    simpa using h

/-- C3 counterexample: in `crawl_category` there is no per-article handler:
a category whose first article raises aborts the whole category (the
second, saveable article is never processed), and only the category-level
handler in `main` lets the run continue with the next category.  With two
categories — the first [raise, savedOk], the second [savedOk] — the run
totals are 1 category, 0 subcategories and 1 article, not the 2 articles
the per-article isolation of the claim would give. -/
theorem claim_C3_counterexample :
    crawlCategory ⟨[ArtOutcome.raise, ArtOutcome.savedOk], []⟩
        = Except.error () ∧
    mainRun [⟨[ArtOutcome.raise, ArtOutcome.savedOk], []⟩,
             ⟨[ArtOutcome.savedOk], []⟩] = ⟨1, 0, 1⟩ := by
  exact ⟨rfl, rfl⟩

/-- C3 (amended): exceptions are isolated only at the category level: the
category loop of `main` catches an exception from one category and
proceeds to the next, so one category's outcome never affects another's
contribution to the run totals; but inside `crawl_category` there is no
per-article or per-subcategory handler — the first raising article aborts
the article loop, and any raise inside the main-article loop or a
subcategory's article loop makes the whole `crawl_category` call raise,
discarding the remaining articles and subcategories of that category. -/
theorem claim_C3 :
    (∀ (pre : List CatInput) (c : CatInput) (post : List CatInput),
      mainRun (pre ++ c :: post) =
        addRun (catContribution c) (mainRun (pre ++ post))) ∧
    (∀ (pre post : List ArtOutcome), ArtOutcome.raise ∉ pre →
      processArts (pre ++ ArtOutcome.raise :: post) = Except.error ()) ∧
    (∀ (arts : List ArtOutcome) (subs : List (List ArtOutcome)),
      processArts arts = Except.error () →
      crawlCategory ⟨arts, subs⟩ = Except.error ()) ∧
    (∀ (presubs : List (List ArtOutcome)) (sub : List ArtOutcome)
       (postsubs : List (List ArtOutcome)) (mainArts : List ArtOutcome),
      processArts sub = Except.error () →
      (∀ s ∈ presubs, ArtOutcome.raise ∉ s) →
      ArtOutcome.raise ∉ mainArts →
      crawlCategory ⟨mainArts, presubs ++ sub :: postsubs⟩ = Except.error ()) := by
  have addRun_assoc : ∀ a b c, addRun (addRun a b) c = addRun a (addRun b c) := by
    intro a b c
    simp [addRun, Nat.add_assoc]
  have addRun_comm : ∀ a b, addRun a b = addRun b a := by
    intro a b
    simp [addRun, Nat.add_comm]
  have noRaise_ok : ∀ (l : List ArtOutcome), ArtOutcome.raise ∉ l →
      ∃ n, processArts l = Except.ok n := by
    intro l
    induction l with
    | nil => exact fun _ => ⟨0, rfl⟩
    | cons a rest ih =>
      intro h
      have ha : a ≠ ArtOutcome.raise := fun he => h (he ▸ List.mem_cons_self a rest)
      have hrest : ArtOutcome.raise ∉ rest := fun hm => h (List.mem_cons_of_mem a hm)
      obtain ⟨n, hn⟩ := ih hrest
      cases a with
      | raise => exact absurd rfl ha
      | savedOk => exact ⟨n + 1, by simp [processArts, hn, Except.map]⟩
      | noContent => exact ⟨n, by simpa [processArts] using hn⟩
      | saveFailed => exact ⟨n, by simpa [processArts] using hn⟩
  refine ⟨?_, ?_, ?_, ?_⟩
  · intro pre c post
    induction pre with
    | nil => rfl
    | cons p rest ih =>
      show addRun (catContribution p) (mainRun (rest ++ c :: post)) = _
      rw [ih]
      show _ = addRun (catContribution c) (addRun (catContribution p) (mainRun (rest ++ post)))
      rw [← addRun_assoc, ← addRun_assoc, addRun_comm (catContribution p) (catContribution c)]
  · intro pre post hnr
    induction pre with
    | nil => rfl
    | cons a rest ih =>
      have ha : a ≠ ArtOutcome.raise := fun he => hnr (he ▸ List.mem_cons_self a rest)
      have hrest : ArtOutcome.raise ∉ rest := fun hm => hnr (List.mem_cons_of_mem a hm)
      have hr := ih hrest
      cases a with
      | raise => exact absurd rfl ha
      | savedOk => simp [processArts, hr, Except.map]
      | noContent => simpa [processArts] using hr
      | saveFailed => simpa [processArts] using hr
  · intro arts subs herr
    simp [crawlCategory, herr]
  · intro presubs sub postsubs mainArts hsub hpres hmain
    obtain ⟨m, hm⟩ := noRaise_ok mainArts hmain
    have hsubs : processSubs (presubs ++ sub :: postsubs) = Except.error () := by
      induction presubs with
      | nil => simp [processSubs, hsub]
      | cons s rest ih =>
        have hs : ArtOutcome.raise ∉ s := hpres s (List.mem_cons_self s rest)
        have hrest : ∀ x ∈ rest, ArtOutcome.raise ∉ x :=
          fun x hx => hpres x (List.mem_cons_of_mem s hx)
        obtain ⟨n, hn⟩ := noRaise_ok s hs
        show processSubs ((s :: rest) ++ sub :: postsubs) = Except.error ()
        simp only [List.cons_append, processSubs, hn]
        rw [show processSubs (rest.append (sub :: postsubs)) = Except.error ()
          from ih hrest]
    simp [crawlCategory, hm, hsubs]

/-- Witness for C3 at concrete inputs: prefix isolation for two concrete
categories, and a concrete raising article aborting its loops. -/
theorem claim_C3_witness :
    mainRun ([⟨[ArtOutcome.savedOk], []⟩] ++
        ⟨[ArtOutcome.raise], []⟩ :: [⟨[ArtOutcome.savedOk], []⟩]) =
      addRun (catContribution ⟨[ArtOutcome.raise], []⟩)
        (mainRun ([⟨[ArtOutcome.savedOk], []⟩] ++ [⟨[ArtOutcome.savedOk], []⟩])) ∧
    processArts ([ArtOutcome.savedOk] ++ ArtOutcome.raise :: [ArtOutcome.savedOk])
      = Except.error () ∧
    crawlCategory ⟨[ArtOutcome.raise], [[ArtOutcome.savedOk]]⟩ = Except.error () ∧
    crawlCategory ⟨[ArtOutcome.savedOk],
        [[ArtOutcome.savedOk]] ++ [ArtOutcome.raise] :: [[ArtOutcome.savedOk]]⟩
      = Except.error () := by
  refine ⟨claim_C3.1 [⟨[ArtOutcome.savedOk], []⟩] ⟨[ArtOutcome.raise], []⟩
      [⟨[ArtOutcome.savedOk], []⟩],
    claim_C3.2.1 [ArtOutcome.savedOk] [ArtOutcome.savedOk] (by decide),
    claim_C3.2.2.1 [ArtOutcome.raise] [[ArtOutcome.savedOk]] rfl,
    claim_C3.2.2.2 [[ArtOutcome.savedOk]] [ArtOutcome.raise] [[ArtOutcome.savedOk]]
      [ArtOutcome.savedOk] rfl (by decide) (by decide)⟩

/-- C6: author extraction inspects only the last paragraph: a last
paragraph without bold text is always retained with no author; one with
bold text `t` yields `t` as author with the paragraph removed exactly when
`t` is (nonempty) bold text shorter than 50 characters whose lowercase
form contains none of the non-name keywords, and otherwise is retained
with no author.  A last paragraph `<b>Nguồn: Báo Chính phủ</b>` yields no
author and stays; `<b>Minh Anh</b>` is returned as author and removed. -/
theorem claim_C6 :
    (∀ (ps : List Para) (p : Para), p.bold = none →
      extractAuthor (ps ++ [p]) = (none, ps ++ [p])) ∧
    (∀ (ps : List Para) (p : Para) (t : String), p.bold = some t →
      extractAuthor (ps ++ [p]) =
        if t ≠ "" ∧ t.length < 50 ∧
            (∀ kw ∈ invalidKeywords, subOccurs kw.data (pyLower t).data = false)
        then (some t, ps) else (none, ps ++ [p])) ∧
    extractAuthor [⟨some "Nguồn: Báo Chính phủ", "Nguồn: Báo Chính phủ"⟩] =
      (none, [⟨some "Nguồn: Báo Chính phủ", "Nguồn: Báo Chính phủ"⟩]) ∧
    extractAuthor [⟨some "Minh Anh", "Minh Anh"⟩] = (some "Minh Anh", []) := by
  have hval : ∀ t : String, isValidAuthor t = true ↔
      (t ≠ "" ∧ t.length < 50 ∧
        (∀ kw ∈ invalidKeywords, subOccurs kw.data (pyLower t).data = false)) := by
    intro t
    simp [isValidAuthor, List.all_eq_true, and_assoc]
  refine ⟨?_, ?_, by decide, by decide⟩
  · intro ps p h
    simp [extractAuthor, List.getLast?_concat, h]
  · intro ps p t h
    split_ifs with hcond
    · have hv := (hval t).mpr hcond
      simp [extractAuthor, List.getLast?_concat, List.dropLast_concat, h, hv]
    · have hv : isValidAuthor t = false := by
        cases hb : isValidAuthor t
        · rfl
        · exact absurd ((hval t).mp hb) hcond
      simp [extractAuthor, List.getLast?_concat, h, hv]

/-- Witness for C6 at a concrete two-paragraph body: the valid bold name
in the last paragraph is extracted and the paragraph dropped. -/
theorem claim_C6_witness :
    extractAuthor [⟨none, "Body text"⟩, ⟨some "Minh Anh", "Minh Anh"⟩] =
      (some "Minh Anh", [⟨none, "Body text"⟩]) := by
  rw [show ([⟨none, "Body text"⟩, ⟨some "Minh Anh", "Minh Anh"⟩] : List Para) =
      [⟨none, "Body text"⟩] ++ [⟨some "Minh Anh", "Minh Anh"⟩] from rfl]
  rw [claim_C6.2.1 [⟨none, "Body text"⟩] ⟨some "Minh Anh", "Minh Anh"⟩
    "Minh Anh" rfl]
  decide

/-- C7 counterexample: body assembly applies no 20-character minimum and
no caption-keyword filter — a 4-character paragraph "Ngắn" is kept (alone
and after another paragraph, joined with a blank line), and a paragraph
led by the caption marker "Ảnh:" is kept too. -/
theorem claim_C7_counterexample :
    mainContent [⟨none, "Ngắn"⟩] = "Ngắn" ∧ ("Ngắn" : String).length < 20 ∧
    mainContent [⟨none, "This paragraph is long enough to keep."⟩, ⟨none, "Ngắn"⟩]
      = "This paragraph is long enough to keep.\n\nNgắn" ∧
    mainContent [⟨none, "Ảnh: Toàn cảnh phiên họp Chính phủ thường kỳ"⟩] =
      "Ảnh: Toàn cảnh phiên họp Chính phủ thường kỳ" := by
  exact ⟨by decide, by decide, by decide, by decide⟩

/-- C7 (amended): when assembling an article body, exactly the paragraphs
whose stripped text is empty are skipped (no length or caption filtering),
and the remaining texts are joined with a blank line between consecutive
paragraphs. -/
theorem claim_C7 :
    (∀ (pre : List Para) (p : Para), p.text ≠ "" →
      mainContent (pre ++ [p]) =
        (if (contentParts pre).isEmpty then p.text
         else mainContent pre ++ "\n\n" ++ p.text)) ∧
    (∀ (pre : List Para) (p : Para), p.text = "" →
      mainContent (pre ++ [p]) = mainContent pre) := by
  have hparts : ∀ (pre : List Para) (p : Para),
      contentParts (pre ++ [p]) =
        contentParts pre ++ (if p.text = "" then [] else [p.text]) := by
    intro pre p
    by_cases h : p.text = "" <;> simp [contentParts, List.filterMap_append, h]
  have hjoin : ∀ (sep : String) (xs : List String) (x : String),
      joinSep sep (xs ++ [x]) =
        if xs.isEmpty then x else joinSep sep xs ++ sep ++ x := by
    intro sep xs
    induction xs with
    | nil => intro x; rfl
    | cons y tail ih =>
      intro x
      cases tail with
      | nil => rfl
      | cons z rest =>
        show joinSep sep (y :: ((z :: rest) ++ [x])) = _
        rw [show joinSep sep (y :: ((z :: rest) ++ [x])) =
            y ++ sep ++ joinSep sep ((z :: rest) ++ [x]) from rfl]
        rw [ih x]
        simp [joinSep, String.append_assoc]
  constructor
  · intro pre p hp
    by_cases hpre : (contentParts pre).isEmpty
    · have : contentParts pre = [] := by
        cases hc : contentParts pre
        · rfl
        · rw [hc] at hpre; simp at hpre
      simp [mainContent, hparts, hp, this, joinSep]
    · have hne : contentParts pre ≠ [] := by
        intro hc
        rw [hc] at hpre; simp at hpre
      simp only [mainContent, hparts, if_neg hp]
      rw [hjoin]
      simp [hpre, hne]
  · intro pre p hp
    simp [mainContent, hparts, hp]

/-- Witness for C7 at a concrete body: a nonempty second paragraph joins
the first with a blank line. -/
theorem claim_C7_witness :
    mainContent [⟨none, "First paragraph text"⟩, ⟨none, "Ngắn"⟩] =
      "First paragraph text\n\nNgắn" := by
  rw [show ([⟨none, "First paragraph text"⟩, ⟨none, "Ngắn"⟩] : List Para) =
      [⟨none, "First paragraph text"⟩] ++ [⟨none, "Ngắn"⟩] from rfl]
  rw [claim_C7.1 [⟨none, "First paragraph text"⟩] ⟨none, "Ngắn"⟩ (by decide)]
  decide

theorem str_append_ne_empty (s t : String) (hs : s ≠ "") : s ++ t ≠ "" := by
  intro h
  apply hs
  have hd := congrArg String.data h
  rw [String.data_append] at hd
  have h1 : s.data = [] := (List.append_eq_nil.mp hd).1
  exact String.ext (by rw [h1])

theorem normalizeUrl_some_ne_empty {l f : String} (hl : l ≠ "")
    (h : normalizeUrl l SITE_URL = some f) : f ≠ "" := by
  unfold normalizeUrl at h
  rw [if_neg hl] at h
  by_cases hh : startsWithPy l "http" = true
  · rw [if_pos hh] at h
    intro hf
    exact hl ((Option.some.inj h).trans hf)
  · rw [if_neg hh] at h
    dsimp only at h
    split_ifs at h with hs
    · exact (Option.some.inj h) ▸ str_append_ne_empty SITE_URL _ (by decide)
    · exact (Option.some.inj h) ▸ str_append_ne_empty (SITE_URL ++ "/") _
        (str_append_ne_empty _ _ (by decide))

theorem scanCands_inv :
    ∀ (cands : List Cand) (seen : List String) (acc : List Art),
      (∀ a ∈ acc, a.title ≠ "" ∧ a.link ≠ "" ∧ a.link ∈ seen) →
      List.Pairwise (fun a b => a.link ≠ b.link) acc →
      (∀ a ∈ (scanCands cands seen acc).2,
        a.title ≠ "" ∧ a.link ≠ "" ∧ a.link ∈ (scanCands cands seen acc).1) ∧
      List.Pairwise (fun a b => a.link ≠ b.link) (scanCands cands seen acc).2 := by
  intro cands
  induction cands with
  | nil => exact fun seen acc h hp => ⟨h, hp⟩
  | cons c rest ih =>
    intro seen acc h hp
    show (∀ a ∈ (scanCands (c :: rest) seen acc).2, _) ∧ _
    rw [scanCands]
    by_cases hc : c.title ≠ "" ∧ c.link ≠ ""
    · rw [if_pos hc]
      cases hnorm : normalizeUrl c.link SITE_URL with
      | none => exact ih seen acc h hp
      | some full =>
        dsimp only
        by_cases hseen : full ∈ seen
        · rw [if_pos hseen]
          exact ih seen acc h hp
        · rw [if_neg hseen]
          have hfull : full ≠ "" := normalizeUrl_some_ne_empty hc.2 hnorm
          apply ih
          · intro a ha
            rcases List.mem_append.mp ha with hmem | hmem
            · obtain ⟨h1, h2, h3⟩ := h a hmem
              exact ⟨h1, h2, List.mem_cons_of_mem _ h3⟩
            · rw [List.mem_singleton.mp hmem]
              exact ⟨hc.1, hfull, List.mem_cons_self _ _⟩
          · rw [List.pairwise_append]
            refine ⟨hp, List.pairwise_singleton _ _, ?_⟩
            intro a ha b hb
            rw [List.mem_singleton.mp hb]
            intro he
            have he2 : a.link = full := he
            exact hseen (he2 ▸ (h a ha).2.2)
    · rw [if_neg hc]
      exact ih seen acc h hp

/-- C8 counterexample: with `max_articles = 0` the cap is skipped (the
source guards the truncation with `if max_articles:`), so a page with two
valid candidates returns 2 records — more than `max_articles`. -/
theorem claim_C8_counterexample :
    (getArticlesFromPage [⟨"T1", "/a.htm"⟩, ⟨"T2", "/b.htm"⟩] [] 0).length = 2 ∧
    ¬ ((getArticlesFromPage [⟨"T1", "/a.htm"⟩, ⟨"T2", "/b.htm"⟩] [] 0).length ≤ 0) := by
  exact ⟨by decide, by decide⟩

/-- C8 (amended): the article-listing operation always returns records
with pairwise-distinct absolute URLs and nonempty titles and URLs
(candidates with an empty title or url, or a url already seen on the page,
are rejected), and the returned list has at most `max_articles` records
whenever `max_articles` is nonzero — a zero `max_articles` disables the
cap. -/
theorem claim_C8 :
    ∀ (s1 s2 : List Cand) (maxA : Nat),
      List.Pairwise (fun a b => a.link ≠ b.link)
        (getArticlesFromPage s1 s2 maxA) ∧
      (∀ a ∈ getArticlesFromPage s1 s2 maxA, a.title ≠ "" ∧ a.link ≠ "") ∧
      (maxA ≠ 0 → (getArticlesFromPage s1 s2 maxA).length ≤ maxA) := by
  intro s1 s2 maxA
  have base := scanCands_inv s1 [] [] (by simp) (by simp)
  have inv2 : (∀ a ∈ (if (scanCands s1 [] []).2.isEmpty
        then (scanCands s2 (scanCands s1 [] []).1 (scanCands s1 [] []).2).2
        else (scanCands s1 [] []).2), a.title ≠ "" ∧ a.link ≠ "") ∧
      List.Pairwise (fun a b => a.link ≠ b.link)
        (if (scanCands s1 [] []).2.isEmpty
         then (scanCands s2 (scanCands s1 [] []).1 (scanCands s1 [] []).2).2
         else (scanCands s1 [] []).2) := by
    by_cases he : (scanCands s1 [] []).2.isEmpty
    · rw [if_pos he]
      have step := scanCands_inv s2 (scanCands s1 [] []).1 (scanCands s1 [] []).2
        (fun a ha => base.1 a ha) base.2
      exact ⟨fun a ha => ⟨(step.1 a ha).1, (step.1 a ha).2.1⟩, step.2⟩
    · rw [if_neg he]
      exact ⟨fun a ha => ⟨(base.1 a ha).1, (base.1 a ha).2.1⟩, base.2⟩
  have hdef : getArticlesFromPage s1 s2 maxA =
      (if maxA ≠ 0 then
        (if (scanCands s1 [] []).2.isEmpty
         then (scanCands s2 (scanCands s1 [] []).1 (scanCands s1 [] []).2).2
         else (scanCands s1 [] []).2).take maxA
       else
        (if (scanCands s1 [] []).2.isEmpty
         then (scanCands s2 (scanCands s1 [] []).1 (scanCands s1 [] []).2).2
         else (scanCands s1 [] []).2)) := rfl
  by_cases hm : maxA ≠ 0
  · rw [hdef, if_pos hm]
    exact ⟨inv2.2.sublist (List.take_sublist _ _),
      fun a ha => inv2.1 a ((List.take_sublist _ _).subset ha),
      fun _ => List.length_take_le maxA _⟩
  · rw [hdef, if_neg hm]
    exact ⟨inv2.2, fun a ha => inv2.1 a ha, fun h => absurd h hm⟩

/-- Witness for C8 at a concrete page: two valid candidates and a cap of
1 yield one record with nonempty fields and distinct URLs. -/
theorem claim_C8_witness :
    List.Pairwise (fun a b => a.link ≠ b.link)
      (getArticlesFromPage [⟨"T1", "/a.htm"⟩, ⟨"T2", "/b.htm"⟩] [] 1) ∧
    (getArticlesFromPage [⟨"T1", "/a.htm"⟩, ⟨"T2", "/b.htm"⟩] [] 1).length ≤ 1 := by
  exact ⟨(claim_C8 [⟨"T1", "/a.htm"⟩, ⟨"T2", "/b.htm"⟩] [] 1).1,
    (claim_C8 [⟨"T1", "/a.htm"⟩, ⟨"T2", "/b.htm"⟩] [] 1).2.2 (by decide)⟩

theorem lowerPairs_values_fixed :
    ∀ p ∈ lowerPairs, alookup lowerPairs p.2 = none := by decide

theorem decompPairs_values_fixed :
    ∀ p ∈ decompPairs, ∀ d ∈ p.2,
      alookup lowerPairs d = none ∧ alookup decompPairs d = none := by decide

theorem pyCharLower_idem (c : Char) :
    pyCharLower (pyCharLower c) = pyCharLower c := by
  unfold pyCharLower
  cases h : alookup lowerPairs c with
  | none => simp [h]
  | some v =>
    simp only [Option.getD_some]
    have hm := alookup_mem h
    have := lowerPairs_values_fixed (c, v) hm
    simp only at this
    simp [this]

theorem nfdChar_of_lower_fixed {x : Char} (hx : pyCharLower x = x) :
    ∀ d ∈ nfdChar x, pyCharLower d = d ∧ nfdChar d = [d] := by
  intro d hd
  unfold nfdChar at hd
  cases h : alookup decompPairs x with
  | none =>
    rw [h] at hd
    simp only [Option.getD_none, List.mem_singleton] at hd
    subst hd
    exact ⟨hx, by unfold nfdChar; rw [h]; rfl⟩
  | some ds =>
    rw [h] at hd
    simp only [Option.getD_some] at hd
    have hm := alookup_mem h
    have hfix := decompPairs_values_fixed (x, ds) hm d hd
    constructor
    · unfold pyCharLower
      rw [hfix.1]
      rfl
    · unfold nfdChar
      rw [hfix.2]
      rfl

theorem dChar_preserves {d : Char} (hl : pyCharLower d = d) (hn : nfdChar d = [d])
    (hm : isMnChar d = false) :
    pyCharLower (dChar d) = dChar d ∧ nfdChar (dChar d) = [dChar d] ∧
    isMnChar (dChar d) = false ∧ dChar (dChar d) = dChar d := by
  have hD : d ≠ 'Đ' := by
    intro he
    rw [he] at hl
    exact absurd hl (by decide)
  by_cases hd : d = 'đ'
  · subst hd
    refine ⟨by decide, by decide, by decide, by decide⟩
  · have : dChar d = d := by
      unfold dChar
      rw [if_neg hd, if_neg hD]
    rw [this]
    exact ⟨hl, hn, hm, this⟩

theorem map_fixed_of_mem {f : Char → Char} {l : List Char}
    (h : ∀ c ∈ l, f c = c) : l.map f = l := by
  induction l with
  | nil => rfl
  | cons c rest ih =>
    rw [List.map_cons, h c (List.mem_cons_self c rest),
      ih (fun x hx => h x (List.mem_cons_of_mem c hx))]

theorem flatMap_nfd_fixed {l : List Char}
    (h : ∀ c ∈ l, nfdChar c = [c]) : l.flatMap nfdChar = l := by
  induction l with
  | nil => rfl
  | cons c rest ih =>
    rw [List.flatMap_cons, h c (List.mem_cons_self c rest),
      ih (fun x hx => h x (List.mem_cons_of_mem c hx))]
    rfl

theorem filter_nonMn_fixed {l : List Char}
    (h : ∀ c ∈ l, isMnChar c = false) :
    l.filter (fun c => !isMnChar c) = l := by
  induction l with
  | nil => rfl
  | cons c rest ih =>
    rw [List.filter_cons]
    rw [h c (List.mem_cons_self c rest)]
    simp only [Bool.not_false, if_pos]
    rw [ih (fun x hx => h x (List.mem_cons_of_mem c hx))]

theorem removeVietAccents_mem {l : List Char}
    (h : ∀ c ∈ l, pyCharLower c = c) :
    ∀ c ∈ removeVietAccentsL l,
      pyCharLower c = c ∧ nfdChar c = [c] ∧ isMnChar c = false ∧
      dChar c = c := by
  intro c hc
  unfold removeVietAccentsL at hc
  obtain ⟨d, hd, hdc⟩ := List.mem_map.mp hc
  obtain ⟨hdf, hdm⟩ := List.mem_filter.mp hd
  obtain ⟨x, hx, hdx⟩ := List.mem_flatMap.mp hdf
  obtain ⟨hld, hnd⟩ := nfdChar_of_lower_fixed (h x hx) d hdx
  have hdm2 : isMnChar d = false := by
    cases hmn : isMnChar d
    · rfl
    · rw [hmn] at hdm; simp at hdm
  obtain ⟨p1, p2, p3, p4⟩ := dChar_preserves hld hnd hdm2
  rw [← hdc]
  exact ⟨p1, p2, p3, p4⟩

theorem wordsAux_mem {l : List Char} :
    ∀ (acc : List Char) (w : List Char), (∀ c ∈ acc, isSpacePy c = false) →
      w ∈ wordsAux l acc →
      ∀ c ∈ w, (c ∈ l ∧ isSpacePy c = false) ∨ c ∈ acc := by
  induction l with
  | nil =>
    intro acc w hacc hw c hc
    unfold wordsAux at hw
    by_cases he : acc.isEmpty
    · rw [if_pos he] at hw
      exact absurd hw (List.not_mem_nil w)
    · rw [if_neg he] at hw
      rw [List.mem_singleton.mp hw] at hc
      exact Or.inr (List.mem_reverse.mp hc)
  | cons c0 cs ih =>
    intro acc w hacc hw c hc
    unfold wordsAux at hw
    by_cases hs : isSpacePy c0
    · rw [if_pos hs] at hw
      by_cases he : acc.isEmpty
      · rw [if_pos he] at hw
        rcases ih [] w (by simp) hw c hc with ⟨h1, h2⟩ | h2
        · exact Or.inl ⟨List.mem_cons_of_mem c0 h1, h2⟩
        · exact absurd h2 (List.not_mem_nil c)
      · rw [if_neg he] at hw
        rcases List.mem_cons.mp hw with hw1 | hw2
        · rw [hw1] at hc
          exact Or.inr (List.mem_reverse.mp hc)
        · rcases ih [] w (by simp) hw2 c hc with ⟨h1, h2⟩ | h2
          · exact Or.inl ⟨List.mem_cons_of_mem c0 h1, h2⟩
          · exact absurd h2 (List.not_mem_nil c)
    · rw [if_neg hs] at hw
      have hacc2 : ∀ x ∈ c0 :: acc, isSpacePy x = false := by
        intro x hx
        rcases List.mem_cons.mp hx with h1 | h2
        · rw [h1]
          cases hb : isSpacePy c0
          · rfl
          · exact absurd hb hs
        · exact hacc x h2
      rcases ih (c0 :: acc) w hacc2 hw c hc with ⟨h1, h2⟩ | h2
      · exact Or.inl ⟨List.mem_cons_of_mem c0 h1, h2⟩
      · rcases List.mem_cons.mp h2 with h3 | h4
        · subst h3
          refine Or.inl ⟨List.mem_cons_self _ _, ?_⟩
          cases hb : isSpacePy c
          · rfl
          · exact absurd hb hs
        · exact Or.inr h4

theorem joinWordsSp_mem {ws : List (List Char)} {c : Char}
    (hc : c ∈ joinWordsSp ws) : c = ' ' ∨ ∃ w ∈ ws, c ∈ w := by
  induction ws with
  | nil => exact absurd hc (List.not_mem_nil c)
  | cons w rest ih =>
    cases rest with
    | nil =>
      exact Or.inr ⟨w, List.mem_singleton_self w, hc⟩
    | cons x rest2 =>
      rw [show joinWordsSp (w :: x :: rest2) = w ++ ' ' :: joinWordsSp (x :: rest2)
        from rfl] at hc
      rcases List.mem_append.mp hc with h1 | h2
      · exact Or.inr ⟨w, List.mem_cons_self _ _, h1⟩
      · rcases List.mem_cons.mp h2 with h3 | h4
        · exact Or.inl h3
        · rcases ih h4 with h5 | ⟨w2, hw2, hcw2⟩
          · exact Or.inl h5
          · exact Or.inr ⟨w2, List.mem_cons_of_mem w hw2, hcw2⟩

theorem collapseWSL_mem {l : List Char} {c : Char} (hc : c ∈ collapseWSL l) :
    c = ' ' ∨ (c ∈ l ∧ isSpacePy c = false) := by
  unfold collapseWSL at hc
  rcases joinWordsSp_mem hc with h1 | ⟨w, hw, hcw⟩
  · exact Or.inl h1
  · rcases wordsAux_mem [] w (by simp) hw c hcw with h2 | h3
    · exact Or.inr h2
    · exact absurd h3 (List.not_mem_nil c)

theorem collapseUnd_subset {l : List Char} {c : Char}
    (hc : c ∈ collapseUnd l) : c ∈ l := by
  induction l with
  | nil => exact absurd hc (List.not_mem_nil c)
  | cons a rest ih =>
    cases rest with
    | nil => exact hc
    | cons b rest2 =>
      rw [show collapseUnd (a :: b :: rest2) =
          (if a = '_' && b = '_' then collapseUnd (b :: rest2)
           else a :: collapseUnd (b :: rest2)) from rfl] at hc
      by_cases hab : a = '_' && b = '_'
      · rw [if_pos hab] at hc
        exact List.mem_cons_of_mem a (ih hc)
      · rw [if_neg hab] at hc
        rcases List.mem_cons.mp hc with h1 | h2
        · rw [h1]; exact List.mem_cons_self a _
        · exact List.mem_cons_of_mem a (ih h2)

theorem collapseUnd_head : ∀ (l : List Char),
    (collapseUnd l).head? = l.head? := by
  intro l
  induction l with
  | nil => rfl
  | cons a rest ih =>
    cases rest with
    | nil => rfl
    | cons b rest2 =>
      rw [show collapseUnd (a :: b :: rest2) =
          (if a = '_' && b = '_' then collapseUnd (b :: rest2)
           else a :: collapseUnd (b :: rest2)) from rfl]
      by_cases hab : a = '_' && b = '_'
      · rw [if_pos hab]
        have hab2 := hab
        simp only [Bool.and_eq_true, decide_eq_true_eq] at hab2
        rw [ih]
        rw [hab2.1, hab2.2]
        rfl
      · rw [if_neg hab]
        rfl

theorem collapseUnd_noDD : ∀ (l : List Char),
    noDoubleUnd (collapseUnd l) = true := by
  intro l
  induction l with
  | nil => rfl
  | cons a rest ih =>
    cases rest with
    | nil => rfl
    | cons b rest2 =>
      rw [show collapseUnd (a :: b :: rest2) =
          (if a = '_' && b = '_' then collapseUnd (b :: rest2)
           else a :: collapseUnd (b :: rest2)) from rfl]
      by_cases hab : a = '_' && b = '_'
      · rw [if_pos hab]
        exact ih
      · rw [if_neg hab]
        have hh := collapseUnd_head (b :: rest2)
        cases hcb : collapseUnd (b :: rest2) with
        | nil => rfl
        | cons d tail =>
          rw [hcb] at hh
          have hd : d = b := Option.some.inj hh
          rw [show noDoubleUnd (a :: d :: tail) =
              (!(a = '_' && d = '_') && noDoubleUnd (d :: tail)) from rfl]
          have h1 : (decide (a = '_') && decide (d = '_')) = false := by
            rw [hd]
            cases hx : (decide (a = '_') && decide (b = '_'))
            · rfl
            · exact absurd hx hab
          rw [h1]
          have h2 : noDoubleUnd (d :: tail) = true := by
            rw [← hcb]
            exact ih
          rw [h2]
          rfl

theorem collapseUnd_fixed_of_noDD : ∀ (l : List Char),
    noDoubleUnd l = true → collapseUnd l = l := by
  intro l
  induction l with
  | nil => intro _; rfl
  | cons a rest ih =>
    cases rest with
    | nil => intro _; rfl
    | cons b rest2 =>
      intro hdd
      rw [show noDoubleUnd (a :: b :: rest2) =
          (!(a = '_' && b = '_') && noDoubleUnd (b :: rest2)) from rfl] at hdd
      rw [Bool.and_eq_true] at hdd
      rw [show collapseUnd (a :: b :: rest2) =
          (if a = '_' && b = '_' then collapseUnd (b :: rest2)
           else a :: collapseUnd (b :: rest2)) from rfl]
      have hne : ¬ ((a = '_' && b = '_') = true) := by
        intro hx
        rw [hx] at hdd
        exact absurd hdd.1 (by decide)
      rw [if_neg hne, ih hdd.2]

theorem wordsAux_no_space {l : List Char}
    (h : ∀ c ∈ l, isSpacePy c = false) :
    ∀ (acc : List Char),
      wordsAux l acc =
        (if acc.isEmpty && l.isEmpty then [] else [acc.reverse ++ l]) := by
  induction l with
  | nil =>
    intro acc
    by_cases he : acc.isEmpty
    · rw [show wordsAux [] acc = (if acc.isEmpty then [] else [acc.reverse]) from rfl]
      rw [if_pos he]
      rw [he]
      rfl
    · rw [show wordsAux [] acc = (if acc.isEmpty then [] else [acc.reverse]) from rfl]
      rw [if_neg he]
      have : acc.isEmpty = false := by
        cases hx : acc.isEmpty
        · rfl
        · exact absurd hx he
      rw [this]
      simp
  | cons c cs ih =>
    intro acc
    have hc : isSpacePy c = false := h c (List.mem_cons_self c cs)
    have hcs : ∀ x ∈ cs, isSpacePy x = false :=
      fun x hx => h x (List.mem_cons_of_mem c hx)
    rw [show wordsAux (c :: cs) acc =
        (if isSpacePy c then
          (if acc.isEmpty then wordsAux cs [] else acc.reverse :: wordsAux cs [])
         else wordsAux cs (c :: acc)) from rfl]
    rw [hc]
    simp only [Bool.false_eq_true, if_false]
    have ih2 := ih hcs (c :: acc)
    rw [show (wordsAux cs (c :: acc)) =
        (if (c :: acc).isEmpty && cs.isEmpty then [] else [(c :: acc).reverse ++ cs])
        from ih2]
    simp only [List.isEmpty_cons, Bool.false_and, Bool.false_eq_true, if_false,
      List.reverse_cons, List.append_assoc, List.singleton_append]
    simp

theorem normalizeNameL_good : ∀ (l : List Char),
    (∀ c ∈ normalizeNameL l, normalChar c) ∧
    noDoubleUnd (normalizeNameL l) = true := by
  intro l
  unfold normalizeNameL
  by_cases he : l.isEmpty
  · rw [if_pos he]
    have : l = [] := by
      cases l
      · rfl
      · simp [List.isEmpty_cons] at he
    rw [this]
    exact ⟨fun c hc => absurd hc (List.not_mem_nil c), rfl⟩
  · rw [if_neg he]
    constructor
    · intro c hc
      have hc2 := collapseUnd_subset hc
      obtain ⟨d, hd, hdc⟩ := List.mem_map.mp hc2
      rcases collapseWSL_mem hd with hsp | ⟨hdl, hdns⟩
      · rw [hsp] at hdc
        rw [← hdc]
        refine ⟨by decide, by decide, by decide, by decide, by decide, by decide⟩
      · obtain ⟨e, hel, hed⟩ := List.mem_map.mp hdl
        have lowered : ∀ x ∈ l.map pyCharLower, pyCharLower x = x := by
          intro x hx
          obtain ⟨y, _, hy⟩ := List.mem_map.mp hx
          rw [← hy]
          exact pyCharLower_idem y
        have he4 := removeVietAccents_mem lowered e hel
        by_cases hg : isWordCharPy e || isSpacePy e
        · have hede : d = e := by
            rw [← hed]
            simp [hg]
          have hword : isWordCharPy e = true := by
            rcases Bool.or_eq_true _ _ |>.mp hg with hw | hs
            · exact hw
            · rw [hede] at hdns
              exact absurd hs (by rw [hdns]; decide)
          have hdchar : d ≠ ' ' := by
            intro hsp2
            rw [hsp2] at hdns
            exact absurd hdns (by decide)
          have hcd : c = d := by
            rw [← hdc]
            simp [hdchar]
          rw [hcd, hede]
          exact ⟨he4.1, he4.2.1, he4.2.2.1, he4.2.2.2, hword, by
            rw [← hede]; exact hdns⟩
        · have hede : d = ' ' := by
            rw [← hed]
            simp only [hg, Bool.false_eq_true, if_false]
          rw [hede] at hdns
          exact absurd hdns (by decide)
    · exact collapseUnd_noDD _

theorem normalizeNameL_idem : ∀ (l : List Char),
    normalizeNameL (normalizeNameL l) = normalizeNameL l := by
  intro l
  obtain ⟨hgood, hdd⟩ := normalizeNameL_good l
  by_cases he : (normalizeNameL l).isEmpty
  · have hnil : normalizeNameL l = [] := by
      cases hx : normalizeNameL l
      · rfl
      · rw [hx] at he
        simp [List.isEmpty_cons] at he
    rw [hnil]
    rfl
  · have hne : normalizeNameL l ≠ [] := by
      intro hx
      rw [hx] at he
      exact he rfl
    conv_lhs => rw [normalizeNameL]
    rw [if_neg he]
    rw [map_fixed_of_mem (fun c hc => (hgood c hc).1)]
    rw [show removeVietAccentsL (normalizeNameL l) =
        (((normalizeNameL l).flatMap nfdChar).filter (fun c => !isMnChar c)).map dChar
        from rfl]
    rw [flatMap_nfd_fixed (fun c hc => (hgood c hc).2.1)]
    rw [filter_nonMn_fixed (fun c hc => (hgood c hc).2.2.1)]
    rw [map_fixed_of_mem (fun c hc => (hgood c hc).2.2.2.1)]
    rw [map_fixed_of_mem (fun c hc => by
      have := (hgood c hc).2.2.2.2
      simp [this.1])]
    rw [show collapseWSL (normalizeNameL l) =
        joinWordsSp (wordsAux (normalizeNameL l) []) from rfl]
    rw [wordsAux_no_space (fun c hc => (hgood c hc).2.2.2.2.2) []]
    have hle : (([] : List Char).isEmpty && (normalizeNameL l).isEmpty) = false := by
      rw [show ([] : List Char).isEmpty = true from rfl]
      rw [Bool.true_and]
      cases hx : (normalizeNameL l).isEmpty
      · rfl
      · exact absurd hx he
    rw [hle]
    simp only [Bool.false_eq_true, if_false, List.reverse_nil, List.nil_append]
    rw [show joinWordsSp [normalizeNameL l] = normalizeNameL l from rfl]
    rw [show spaceToUnd (normalizeNameL l) =
        (normalizeNameL l).map (fun c => if c = ' ' then '_' else c) from rfl]
    rw [map_fixed_of_mem (fun c hc => by
      have hns := (hgood c hc).2.2.2.2.2
      have : c ≠ ' ' := by
        intro hx
        rw [hx] at hns
        exact absurd hns (by decide)
      simp [this])]
    exact collapseUnd_fixed_of_noDD _ hdd

/-- C9: `normalize_category_name` is a pure, deterministic and idempotent
function of its input: repeated calls agree, normalizing twice equals
normalizing once on every string, and normalize("Chính trị") =
"chinh_tri". -/
theorem claim_C9 :
    (∀ s : String, normalizeName s = normalizeName s) ∧
    (∀ s : String, normalizeName (normalizeName s) = normalizeName s) ∧
    normalizeName "Chính trị" = "chinh_tri" := by
  refine ⟨fun s => rfl, ?_, by decide⟩
  intro s
  unfold normalizeName
  exact congrArg String.mk (normalizeNameL_idem s.data)

end Crawl
